import Mathlib

/-!
Shallow embedding of `bitw0r1d.py` (the evolutionary simulation engine of the
bitw0r1d repository).

Conventions of the embedding:
* Python floats are modelled as rationals (`ℚ`).
* Bit-strings (`'0'`/`'1'` characters) are modelled as `List Bool`
  (`'1'` ↦ `true`).
* All randomness is made explicit: a run consumes a stream `Strm = Nat → ℚ`
  of uniform draws in `[0,1)`, taken in program order (the Python code draws
  from the seeded `numpy` and `random` generators; under its `seed`-based
  initialisation a run is a function of the seed, which the stream models).
  `rn.randint(0, n)` is modelled by the inverse-CDF reading of one uniform
  draw, `randNat q n = ⌊q * (n+1)⌋ % (n+1)` (the `% (n+1)` only totalises
  draws outside `[0,1)`, which a real generator never produces).
* `polyleven.levenshtein` (an external library the source imports as `ld`)
  is the standard unit-cost Levenshtein edit distance; `lev` below is its
  textbook recurrence.
* Console printing and CSV writing (`printing`, `write`, `path`, `dataframe`,
  `writing`) are I/O side effects with no influence on simulation state and
  are not modelled; the `pd.DataFrame` return value is modelled as the list
  of output rows (`Record`).
-/

namespace Bitw0r1d

attribute [local semireducible] Rat.add Rat.mul Rat.sub Rat.inv

/-- Stream of uniform random draws in `[0,1)`, consumed in program order. -/
abbrev Strm : Type := Nat → ℚ

/-- Take one draw from the stream; the rest of the stream follows. -/
def next (st : Strm) : ℚ × Strm := (st 0, fun n => st (n + 1))

/-- Model of Python's `rn.randint(0, n)` (uniform integer in `[0, n]`,
inclusive) by inverse CDF of one uniform draw `q ∈ [0,1)`. -/
def randNat (q : ℚ) (n : Nat) : Nat := (Int.toNat ⌊q * (n + 1)⌋) % (n + 1)

/-- Helper for `lev`: the distance from `x :: xs` to the second argument,
where `f` computes the distance from `xs`. Structured this way (instead of
a single well-founded recursion) so that the definition is structurally
recursive and evaluates inside the kernel. -/
def levAux (x : Bool) (xs : List Bool) (f : List Bool → Nat) :
    List Bool → Nat
  | [] => xs.length + 1
  | y :: ys =>
      min ((if x = y then 0 else 1) + f ys)
        (min (1 + f (y :: ys)) (1 + levAux x xs f ys))

/-- Unit-cost Levenshtein edit distance (the `polyleven.levenshtein` the
source imports as `ld`), by the textbook recurrence: see `lev_cons_cons`. -/
def lev : List Bool → List Bool → Nat
  | [], ys => ys.length
  | x :: xs, ys => levAux x xs (lev xs) ys

/-- `evaluate` from the source: inverted normalised Levenshtein distance,
`1 - ld(technologies, space) / max(len(technologies), len(space))`. -/
def evaluate (technologies space : List Bool) : ℚ :=
  1 - (lev technologies space : ℚ) / (max technologies.length space.length : ℚ)

/-- `string_generator` from the source:
`''.join(np.random.choice(['0','1'], l, [p,1-p]))`.
The third positional parameter of `np.random.choice` is `replace`, not the
weight vector `p`, so the weights `[p, 1-p]` land in the (truthy) `replace`
slot and the symbols are drawn UNIFORMLY from `{'0','1'}`; the parameter `p`
has no effect on the output. One uniform draw is consumed per symbol;
`randNat q 1 = 1` selects index 1, i.e. `'1'`. -/
def string_generator (p : ℚ) (l : Nat) (st : Strm) : List Bool × Strm :=
  match l with
  | 0 => ([], st)
  | l + 1 =>
      let d := next st
      let rest := string_generator p l d.2
      ((if randNat d.1 1 = 1 then true else false) :: rest.1, rest.2)

/-- Follows the spec's words (§4.1 `generate`), as the claim's reference
definition: a string of the given length where each symbol is independently
`1` with probability `p`, read over the uniform stream as `draw < p`. -/
def generate_spec (p : ℚ) (l : Nat) (st : Strm) : List Bool × Strm :=
  match l with
  | 0 => ([], st)
  | l + 1 =>
      let d := next st
      let rest := generate_spec p l d.2
      ((if d.1 < p then true else false) :: rest.1, rest.2)

/-- `flip` from the source: complement the bit at position
`rn.randint(0, len(string) - 1)`. -/
def flip (s : List Bool) (st : Strm) : List Bool × Strm :=
  let d := next st
  let position := randNat d.1 (s.length - 1)
  (s.take position ++ [! s.getD position false] ++ s.drop (position + 1), d.2)

/-- `insert` from the source: insert a random bit at position
`rn.randint(0, len(string))`; the bit is `'0'` if `rn.random() < 0.5`
else `'1'`. -/
def insert (s : List Bool) (st : Strm) : List Bool × Strm :=
  let d := next st
  let position := randNat d.1 s.length
  let d2 := next d.2
  let value : Bool := if d2.1 < 1/2 then false else true
  (s.take position ++ [value] ++ s.drop position, d2.2)

/-- `delete` from the source: remove the bit at position
`rn.randint(0, len(string) - 1)`. There is no length guard here: on a
length-1 string it returns the empty string. -/
def delete (s : List Bool) (st : Strm) : List Bool × Strm :=
  let d := next st
  let position := randNat d.1 (s.length - 1)
  (s.take position ++ s.drop (position + 1), d.2)

/-- Candidate phase of `string_edit` from the source: `p = rn.random()`;
`p < 1/3` modifies via `flip`, `p < 2/3` expands via `insert`, otherwise
contracts via `delete` — but only when `len(str_1) > 1`; a length-1 string
is returned unchanged (and no position is drawn). -/
def string_edit_candidate (str_1 : List Bool) (st : Strm) : List Bool × Strm :=
  let d := next st
  if d.1 < 1/3 then flip str_1 d.2
  else if d.1 < 2/3 then insert str_1 d.2
  else if 1 < str_1.length then delete str_1 d.2
  else (str_1, d.2)

/-- `string_edit` from the source: produce a candidate, then apply the
selection logic — if `rn.random() < eff` keep the original unless the
candidate evaluates strictly better against `str_2`; otherwise always
accept the candidate. -/
def string_edit (str_1 str_2 : List Bool) (eff : ℚ) (st : Strm) : List Bool × Strm :=
  let c := string_edit_candidate str_1 st
  let d := next c.2
  if d.1 < eff then
    if evaluate c.1 str_2 ≤ evaluate str_1 str_2 then (str_1, d.2) else (c.1, d.2)
  else (c.1, d.2)

/-- `resource_function` from the source:
`(cS * effectiveness) - (cT * (1 - effectiveness))`. -/
def resource_function (cS : Nat) (effectiveness : ℚ) (cT : Nat) : ℚ :=
  (cS : ℚ) * effectiveness - (cT : ℚ) * (1 - effectiveness)

/-- The `Society` state: search space and technological system bit-strings,
resource store, endowment and the depletion flag (fields in the order
`__init__` assigns them). -/
structure Society where
  space : List Bool
  technologies : List Bool
  resource_store : ℚ
  initial_endowment : ℚ
  is_depleted : Bool
deriving DecidableEq

/-- `Society.update_resource_store` from the source, returning the available
resources together with the updated society. If `net_resources >= 1` the
store is untouched; otherwise a deficit (1 for `net_resources >= 0`, else
`abs(net_resources)`) is drawn from the store, and if the store cannot cover
it the society collapses: store set to 0, `is_depleted` set, and the
remaining store returned. -/
def update_resource_store (s : Society) (net_resources : ℚ) : ℚ × Society :=
  if 1 ≤ net_resources then (net_resources, s)
  else
    let deficit : ℚ := if 0 ≤ net_resources then 1 else |net_resources|
    if deficit ≤ s.resource_store then
      (1, { s with resource_store := s.resource_store - deficit })
    else
      (s.resource_store, { s with resource_store := 0, is_depleted := true })

/-- `Society.tradeoff` from the source:
`np.random.choice([True,False], iterations, p=[p,1-p])` (here `p` IS passed
as the keyword weight vector, so `True` has probability `p`): a list of
`iterations` Bernoulli draws, `True` iff the uniform draw is `< p`. -/
def tradeoff (iterations : Nat) (p : ℚ) (st : Strm) : List Bool × Strm :=
  match iterations with
  | 0 => ([], st)
  | n + 1 =>
      let d := next st
      let rest := tradeoff n p d.2
      ((if d.1 < p then true else false) :: rest.1, rest.2)

/-- `Society.ce_technologies` from the source: evolve the technological
system via `string_edit(technologies, space, η)`. -/
def ce_technologies (technologies space : List Bool) (eta : ℚ) (st : Strm) :
    List Bool × Strm :=
  string_edit technologies space eta st

/-- `Society.ce_space` from the source: evolve the search space via
`string_edit(space, technologies, λ)`. -/
def ce_space (space technologies : List Bool) (lam : ℚ) (st : Strm) :
    List Bool × Strm :=
  string_edit space technologies lam st

/-- Python's built-in `round` (round half to even), used for
`round(available_resources)`. -/
def pyRound (q : ℚ) : Int :=
  if q - ⌊q⌋ < 1/2 then ⌊q⌋
  else if 1/2 < q - ⌊q⌋ then ⌊q⌋ + 1
  else if ⌊q⌋ % 2 = 0 then ⌊q⌋ else ⌊q⌋ + 1

/-- The engine's parameters (the arguments of `simulation` that influence
state; `path`, `printing` and `write` only drive I/O and are not modelled).
`s_prob`/`t_prob` are `none` for Python's `None` (draw uniformly);
`eta`/`lam` are the source's `η`/`λ`. -/
structure Params where
  seed : Int
  limit : Nat
  generations : Nat
  s_length : Nat
  s_prob : Option ℚ
  t_length : Nat
  t_prob : Option ℚ
  eta : ℚ
  lam : ℚ
  initial_endowment : ℚ
  p_tradeoff : ℚ
deriving DecidableEq

/-- One output row, with the fields of the source's `dataframe` columns. -/
structure Record where
  seed : Int
  generation : Nat
  tech_complexity : Nat
  space_complexity : Nat
  effectiveness : ℚ
  initial_tech : Nat
  initial_space : Nat
  eta : ℚ
  lam : ℚ
  initial_endowment : ℚ
  p_tradeoff : ℚ
  available_resources : ℚ
  resource_store : ℚ
deriving DecidableEq

/-- A default row (used only as the default of `List.getLastD`). -/
def record0 : Record :=
  ⟨0, 0, 0, 0, 0, 0, 0, 0, 0, 0, 0, 0, 0⟩

/-- Which return statement of `simulation` ended the run. -/
inductive Outcome where
  | depleted
  | complexityLimit
  | generationsExhausted
deriving DecidableEq

/-- Audit trace of the Society operations the engine invokes: each entry
records the society passed to the call (`pre`), and for
`update_resource_store` also the resulting society (`post`). The trace is
instrumentation only — it has no influence on control flow or state. -/
inductive OpCall where
  | update (pre post : Society)
  | editTech (pre : Society)
  | editSpace (pre : Society)
deriving DecidableEq

/-- The society an operation was invoked on was already depleted. -/
def OpCall.preDepleted : OpCall → Bool
  | .update pre _ => pre.is_depleted
  | .editTech pre => pre.is_depleted
  | .editSpace pre => pre.is_depleted

/-- The entry is a string-edit operation (`ce_technologies`/`ce_space`). -/
def OpCall.isEdit : OpCall → Bool
  | .update _ _ => false
  | .editTech _ => true
  | .editSpace _ => true

/-- Result of a run: which terminal condition fired, the output rows in
generation order, and the audit trace of Society operations. -/
structure RunResult where
  outcome : Outcome
  records : List Record
  trace : List OpCall
deriving DecidableEq

/-- The per-generation edit loop of `simulation`: for each drawn choice,
`True` replaces `s.technologies` via `ce_technologies`, `False` replaces
`s.space` via `ce_space`, sequentially (later edits see earlier ones). -/
def applyChoices (eta lam : ℚ) : List Bool → Society → Strm →
    Society × Strm × List OpCall
  | [], soc, st => (soc, st, [])
  | c :: cs, soc, st =>
      if c then
        let e := ce_technologies soc.technologies soc.space eta st
        let r := applyChoices eta lam cs { soc with technologies := e.1 } e.2
        (r.1, r.2.1, OpCall.editTech soc :: r.2.2)
      else
        let e := ce_space soc.space soc.technologies lam st
        let r := applyChoices eta lam cs { soc with space := e.1 } e.2
        (r.1, r.2.1, OpCall.editSpace soc :: r.2.2)

/-- The edit phase of one generation of `simulation`:
`iterations = round(available_resources) if available_resources >= 1 else 1`,
then, if there are iterations, draw the tradeoff choices and apply them
sequentially. -/
def genEdits (P : Params) (available : ℚ) (soc1 : Society) (st : Strm) :
    Society × Strm × List OpCall :=
  let iters : Nat := if 1 ≤ available then (pyRound available).toNat else 1
  if 0 < iters then
    let tc := tradeoff iters P.p_tradeoff st
    applyChoices P.eta P.lam tc.1 soc1 tc.2
  else (soc1, st, [])

/-- The `for gen in range(1, generations)` loop of `simulation`, with
`fuel = generations - gen` remaining iterations. Per iteration: compute the
net resources, update the store, stop with no record if the society is
depleted; otherwise run `round(available)` (at least 1) edit events, emit
the row, and stop including it if the complexity limit is reached. -/
def simLoop (P : Params) : Nat → Nat → Society → Strm → RunResult
  | 0, _, _, _ => ⟨.generationsExhausted, [], []⟩
  | fuel + 1, gen, soc, st =>
      let net := resource_function soc.space.length
        (evaluate soc.space soc.technologies) soc.technologies.length
      let u := update_resource_store soc net
      let available := u.1
      let soc1 := u.2
      if soc1.is_depleted then ⟨.depleted, [], [OpCall.update soc soc1]⟩
      else
        let a := genEdits P available soc1 st
        let soc2 := a.1
        let st2 := a.2.1
        let effectiveness := evaluate soc2.technologies soc2.space
        let r : Record := ⟨P.seed, gen, soc2.technologies.length,
          soc2.space.length, effectiveness, P.t_length, P.s_length, P.eta,
          P.lam, P.initial_endowment, P.p_tradeoff, available,
          soc2.resource_store⟩
        if P.limit ≤ soc2.technologies.length then
          ⟨.complexityLimit, [r], OpCall.update soc soc1 :: a.2.2⟩
        else
          let rest := simLoop P fuel (gen + 1) soc2 st2
          ⟨rest.outcome, r :: rest.records,
            (OpCall.update soc soc1 :: a.2.2) ++ rest.trace⟩

/-- Resolution of an initial probability parameter: Python's `None` draws
`np.random.uniform(0.0, 1.0)`. -/
def resolveProb (p : Option ℚ) (st : Strm) : ℚ × Strm :=
  match p with
  | some q => (q, st)
  | none => next st

/-- `Society.__init__` from the source: resolve `s_prob` and `t_prob`
(in that order), generate the search space, then the technological system,
set the store to the endowment and `is_depleted` to `False`. -/
def society_init (P : Params) (st : Strm) : Society × Strm :=
  let s := resolveProb P.s_prob st
  let t := resolveProb P.t_prob s.2
  let sp := string_generator s.1 P.s_length t.2
  let te := string_generator t.1 P.t_length sp.2
  (⟨sp.1, te.1, P.initial_endowment, P.initial_endowment, false⟩, te.2)

/-- `simulation` from the source (state-relevant part): create the society,
run generation 0 (effectiveness, net resources, store update, first row),
then the generation loop. The source performs no validation of its
parameters. -/
def simulation (P : Params) (st : Strm) : RunResult :=
  let i := society_init P st
  let soc := i.1
  let effectiveness := evaluate soc.technologies soc.space
  let net := resource_function soc.space.length
    (evaluate soc.space soc.technologies) soc.technologies.length
  let u := update_resource_store soc net
  let r0 : Record := ⟨P.seed, 0, soc.technologies.length, soc.space.length,
    effectiveness, P.t_length, P.s_length, P.eta, P.lam,
    P.initial_endowment, P.p_tradeoff, u.1, u.2.resource_store⟩
  let rest := simLoop P (P.generations - 1) 1 u.2 i.2
  ⟨rest.outcome, r0 :: rest.records, OpCall.update soc u.2 :: rest.trace⟩

/-- Concrete stream: all draws are 0 except draw 1, which is 3/4. -/
def cst1 : Strm := fun n => if n = 1 then 3/4 else 0

/-- Concrete stream: all draws are 0. -/
def cst0 : Strm := fun _ => 0

/-- Concrete parameters: endowment 0 with initial strings of length 1, a
configuration whose generation-0 net flow can deplete the store at once. -/
def cP1 : Params :=
  ⟨0, 100, 2, 1, some (1/2), 1, some (1/2), 1/2, 1/2, 0, 1/2⟩

/-- Concrete valid parameters for witnesses: endowment 100, two
generations. -/
def cP2 : Params :=
  ⟨0, 100, 2, 1, some (1/2), 1, some (1/2), 1/2, 1/2, 100, 1/2⟩

/-- Concrete invalid parameters: negative endowment and an out-of-range
initial probability. -/
def cP3 : Params :=
  ⟨0, 100, 1, 1, some 2, 1, some (1/2), 1/2, 1/2, -5, 1/2⟩

/-- Concrete stream: all draws are 3/4. -/
def cst34 : Strm := fun _ => 3/4

/-- The generation-0 net resources of a run (abbreviation of the
corresponding subterm of `simulation`). -/
def net0 (P : Params) (st : Strm) : ℚ :=
  resource_function (society_init P st).1.space.length
    (evaluate (society_init P st).1.space (society_init P st).1.technologies)
    (society_init P st).1.technologies.length

/-- The society after the generation-0 store update (abbreviation of the
corresponding subterm of `simulation`). -/
def soc0 (P : Params) (st : Strm) : Society :=
  (update_resource_store (society_init P st).1 (net0 P st)).2

/-- The generation-0 output row (abbreviation of the corresponding subterm
of `simulation`). -/
def rec0 (P : Params) (st : Strm) : Record :=
  ⟨P.seed, 0, (society_init P st).1.technologies.length,
    (society_init P st).1.space.length,
    evaluate (society_init P st).1.technologies (society_init P st).1.space,
    P.t_length, P.s_length, P.eta, P.lam, P.initial_endowment, P.p_tradeoff,
    (update_resource_store (society_init P st).1 (net0 P st)).1,
    (soc0 P st).resource_store⟩

lemma lev_nil_left (ys : List Bool) : lev [] ys = ys.length := rfl

lemma lev_nil_right (xs : List Bool) : lev xs [] = xs.length := by
  cases xs <;> rfl

lemma lev_cons_cons (x y : Bool) (xs ys : List Bool) :
    lev (x :: xs) (y :: ys) =
      min ((if x = y then 0 else 1) + lev xs ys)
        (min (1 + lev xs (y :: ys)) (1 + lev (x :: xs) ys)) := rfl

lemma lev_self (a : List Bool) : lev a a = 0 := by
  induction a with
  | nil => simp [lev]
  | cons x xs ih => simp [lev_cons_cons, ih]

lemma lev_le_max (a b : List Bool) : lev a b ≤ max a.length b.length := by
  induction a generalizing b with
  | nil => simp [lev_nil_left]
  | cons x xs ih =>
      cases b with
      | nil => simp [lev_nil_right]
      | cons y ys =>
          have h1 : lev (x :: xs) (y :: ys) ≤ (if x = y then 0 else 1) + lev xs ys := by
            rw [lev_cons_cons]; exact min_le_left _ _
          have h2 := ih ys
          have hc : (if x = y then 0 else 1) ≤ 1 := by split <;> omega
          simp only [List.length_cons]
          omega

lemma lev_symm_aux : ∀ n a b, List.length a + List.length b ≤ n → lev a b = lev b a := by
  intro n
  induction n with
  | zero =>
      intro a b h
      have ha : a = [] := by cases a <;> simp_all
      have hb : b = [] := by cases b <;> simp_all
      subst ha; subst hb; rfl
  | succ n ih =>
      intro a b h
      cases a with
      | nil => simp [lev_nil_left, lev_nil_right]
      | cons x xs =>
          cases b with
          | nil => simp [lev_nil_left, lev_nil_right]
          | cons y ys =>
              have e1 : lev xs ys = lev ys xs := by
                apply ih; simp at h ⊢; omega
              have e2 : lev xs (y :: ys) = lev (y :: ys) xs := by
                apply ih; simp at h ⊢; omega
              have e3 : lev (x :: xs) ys = lev ys (x :: xs) := by
                apply ih; simp at h ⊢; omega
              have ec : (if x = y then (0:ℕ) else 1) = (if y = x then 0 else 1) := by
                by_cases hxy : x = y <;> simp [hxy, Ne.symm, eq_comm]
              rw [lev_cons_cons, lev_cons_cons, e1, e2, e3, ec,
                min_comm (1 + lev (y :: ys) xs) (1 + lev ys (x :: xs))]

lemma lev_symm (a b : List Bool) : lev a b = lev b a :=
  lev_symm_aux (a.length + b.length) a b (Nat.le_refl _)

lemma evaluate_symm (a b : List Bool) : evaluate a b = evaluate b a := by
  unfold evaluate
  rw [lev_symm, max_comm ((a.length : ℚ)) ((b.length : ℚ))]

lemma evaluate_self (a : List Bool) : evaluate a a = 1 := by
  unfold evaluate
  simp [lev_self]

lemma evaluate_nonneg (a b : List Bool) (ha : a ≠ []) : 0 ≤ evaluate a b := by
  unfold evaluate
  have hmax : 0 < (max a.length b.length : ℚ) := by
    have : 0 < a.length := List.length_pos.mpr ha
    have : 0 < max a.length b.length := lt_of_lt_of_le this (Nat.le_max_left _ _)
    exact_mod_cast this
  have hle : (lev a b : ℚ) ≤ (max a.length b.length : ℚ) := by
    exact_mod_cast lev_le_max a b
  have : (lev a b : ℚ) / (max a.length b.length : ℚ) ≤ 1 :=
    (div_le_one hmax).mpr hle
  linarith

lemma evaluate_le_one (a b : List Bool) : evaluate a b ≤ 1 := by
  unfold evaluate
  have h0 : (0:ℚ) ≤ (lev a b : ℚ) := by positivity
  have hm : (0:ℚ) ≤ (max a.length b.length : ℚ) := by positivity
  have : 0 ≤ (lev a b : ℚ) / (max a.length b.length : ℚ) := by positivity
  linarith

lemma randNat_le (q : ℚ) (n : Nat) : randNat q n ≤ n := by
  unfold randNat
  have := Nat.mod_lt (Int.toNat ⌊q * (n + 1)⌋) (show 0 < n + 1 by omega)
  omega

lemma string_generator_length (p : ℚ) (l : Nat) (st : Strm) :
    (string_generator p l st).1.length = l := by
  induction l generalizing st with
  | zero => simp [string_generator]
  | succ l ih => simp [string_generator, ih]

lemma flip_length (s : List Bool) (st : Strm) (h : s ≠ []) :
    (flip s st).1.length = s.length := by
  have hlen : 1 ≤ s.length := List.length_pos.mpr h
  have hpos := randNat_le (next st).1 (s.length - 1)
  simp only [flip, List.length_append, List.length_take, List.length_drop,
    List.length_cons, List.length_nil]
  omega

lemma insert_length (s : List Bool) (st : Strm) :
    (insert s st).1.length = s.length + 1 := by
  have hpos := randNat_le (next st).1 s.length
  simp only [insert, List.length_append, List.length_take, List.length_drop,
    List.length_cons, List.length_nil]
  omega

lemma delete_length (s : List Bool) (st : Strm) (h : s ≠ []) :
    (delete s st).1.length = s.length - 1 := by
  have hlen : 1 ≤ s.length := List.length_pos.mpr h
  have hpos := randNat_le (next st).1 (s.length - 1)
  simp only [delete, List.length_append, List.length_take, List.length_drop]
  omega

lemma string_edit_candidate_length (s : List Bool) (st : Strm)
    (h : 1 ≤ s.length) : 1 ≤ (string_edit_candidate s st).1.length := by
  have hne : s ≠ [] := by cases s <;> simp_all
  simp only [string_edit_candidate]
  split_ifs with h1 h2 h3
  · rw [flip_length s _ hne]; exact h
  · rw [insert_length]; omega
  · rw [delete_length s _ hne]; omega
  · exact h

lemma string_edit_cases (s1 s2 : List Bool) (eff : ℚ) (st : Strm) :
    (string_edit s1 s2 eff st).1 = s1 ∨
    (string_edit s1 s2 eff st).1 = (string_edit_candidate s1 st).1 := by
  simp only [string_edit]
  split_ifs <;> simp

lemma string_edit_length (s1 s2 : List Bool) (eff : ℚ) (st : Strm)
    (h : 1 ≤ s1.length) : 1 ≤ (string_edit s1 s2 eff st).1.length := by
  rcases string_edit_cases s1 s2 eff st with hc | hc <;> rw [hc]
  · exact h
  · exact string_edit_candidate_length s1 st h

lemma update_resource_store_space (s : Society) (net : ℚ) :
    (update_resource_store s net).2.space = s.space := by
  simp only [update_resource_store]
  by_cases h1 : 1 ≤ net <;>
    by_cases h3 : (if 0 ≤ net then (1:ℚ) else |net|) ≤ s.resource_store <;>
    simp [h1, h3]

lemma update_resource_store_technologies (s : Society) (net : ℚ) :
    (update_resource_store s net).2.technologies = s.technologies := by
  simp only [update_resource_store]
  by_cases h1 : 1 ≤ net <;>
    by_cases h3 : (if 0 ≤ net then (1:ℚ) else |net|) ≤ s.resource_store <;>
    simp [h1, h3]

lemma update_resource_store_depleted_mono (s : Society) (net : ℚ)
    (h : s.is_depleted = true) :
    (update_resource_store s net).2.is_depleted = true := by
  simp only [update_resource_store]
  by_cases h1 : 1 ≤ net <;>
    by_cases h3 : (if 0 ≤ net then (1:ℚ) else |net|) ≤ s.resource_store <;>
    simp [h1, h3, h]

lemma update_resource_store_zero_of_depleted (s : Society) (net : ℚ)
    (h : (update_resource_store s net).2.is_depleted = true)
    (h0 : s.is_depleted = false) :
    (update_resource_store s net).2.resource_store = 0 := by
  simp only [update_resource_store] at h ⊢
  by_cases h1 : 1 ≤ net <;>
    by_cases h3 : (if 0 ≤ net then (1:ℚ) else |net|) ≤ s.resource_store <;>
    simp [h1, h3] at h ⊢ <;> simp_all

lemma deficit_pos (net : ℚ) :
    0 < if 0 ≤ net then (1:ℚ) else |net| := by
  by_cases h2 : 0 ≤ net
  · rw [if_pos h2]; norm_num
  · rw [if_neg h2]
    push_neg at h2
    exact abs_pos.mpr (ne_of_lt h2)

lemma update_resource_store_fixpoint (s : Society) (net : ℚ)
    (h : s.is_depleted = true) (h0 : s.resource_store = 0) :
    (update_resource_store s net).2 = s := by
  simp only [update_resource_store]
  by_cases h1 : 1 ≤ net
  · rw [if_pos h1]
  · rw [if_neg h1]
    have hd := deficit_pos net
    have h3 : ¬ (if 0 ≤ net then (1:ℚ) else |net|) ≤ s.resource_store := by
      rw [h0]; linarith
    rw [if_neg h3]
    cases s with
    | mk sp te rs ie dep =>
        simp only at h h0
        subst h; subst h0
        rfl

lemma applyChoices_state (eta lam : ℚ) :
    ∀ (cs : List Bool) (soc : Society) (st : Strm),
      (applyChoices eta lam cs soc st).1.is_depleted = soc.is_depleted ∧
      (applyChoices eta lam cs soc st).1.resource_store = soc.resource_store := by
  intro cs
  induction cs with
  | nil => intro soc st; simp [applyChoices]
  | cons c cs ih =>
      intro soc st
      by_cases hc : c = true
      · subst hc
        simpa [applyChoices] using ih _ _
      · have hc' : c = false := by cases c <;> simp_all
        subst hc'
        simpa [applyChoices] using ih _ _

lemma applyChoices_lengths (eta lam : ℚ) :
    ∀ (cs : List Bool) (soc : Society) (st : Strm),
      1 ≤ soc.technologies.length → 1 ≤ soc.space.length →
      1 ≤ (applyChoices eta lam cs soc st).1.technologies.length ∧
      1 ≤ (applyChoices eta lam cs soc st).1.space.length := by
  intro cs
  induction cs with
  | nil => intro soc st ht hs; simpa [applyChoices] using ⟨ht, hs⟩
  | cons c cs ih =>
      intro soc st ht hs
      by_cases hc : c = true
      · subst hc
        simp only [applyChoices, if_pos]
        exact ih _ _ (string_edit_length _ _ _ _ ht) hs
      · have hc' : c = false := by cases c <;> simp_all
        subst hc'
        simp only [applyChoices, Bool.false_eq_true, if_false]
        exact ih _ _ ht (string_edit_length _ _ _ _ hs)

lemma applyChoices_trace (eta lam : ℚ) :
    ∀ (cs : List Bool) (soc : Society) (st : Strm),
      ∀ e ∈ (applyChoices eta lam cs soc st).2.2,
        OpCall.preDepleted e = soc.is_depleted ∧ OpCall.isEdit e = true := by
  intro cs
  induction cs with
  | nil => intro soc st e he; simp [applyChoices] at he
  | cons c cs ih =>
      intro soc st e he
      by_cases hc : c = true
      · subst hc
        simp only [applyChoices, if_pos, List.mem_cons] at he
        rcases he with he | he
        · subst he; simp [OpCall.preDepleted, OpCall.isEdit]
        · simpa using ih _ _ e he
      · have hc' : c = false := by cases c <;> simp_all
        subst hc'
        simp only [applyChoices, Bool.false_eq_true, if_false,
          List.mem_cons] at he
        rcases he with he | he
        · subst he; simp [OpCall.preDepleted, OpCall.isEdit]
        · simpa using ih _ _ e he

lemma genEdits_state (P : Params) (available : ℚ) (soc : Society) (st : Strm) :
    (genEdits P available soc st).1.is_depleted = soc.is_depleted ∧
    (genEdits P available soc st).1.resource_store = soc.resource_store := by
  simp only [genEdits]
  split_ifs <;> first
    | exact applyChoices_state _ _ _ _ _
    | simp

lemma genEdits_lengths (P : Params) (available : ℚ) (soc : Society)
    (st : Strm) (ht : 1 ≤ soc.technologies.length)
    (hs : 1 ≤ soc.space.length) :
    1 ≤ (genEdits P available soc st).1.technologies.length ∧
    1 ≤ (genEdits P available soc st).1.space.length := by
  simp only [genEdits]
  split_ifs <;> first
    | exact applyChoices_lengths _ _ _ _ _ ht hs
    | exact ⟨ht, hs⟩

lemma genEdits_trace (P : Params) (available : ℚ) (soc : Society)
    (st : Strm) :
    ∀ e ∈ (genEdits P available soc st).2.2,
      OpCall.preDepleted e = soc.is_depleted ∧ OpCall.isEdit e = true := by
  simp only [genEdits]
  split_ifs <;> first
    | exact applyChoices_trace _ _ _ _ _
    | (intro e he; simp at he)

lemma getLastD_irrel (l : List Record) (a b : Record) (h : l ≠ []) :
    l.getLastD a = l.getLastD b := by
  cases l with
  | nil => exact absurd rfl h
  | cons x xs => rw [List.getLastD_cons, List.getLastD_cons]

lemma range_map_shift (n gen : Nat) :
    (List.range (n + 1)).map (fun i => gen + i) =
      gen :: (List.range n).map (fun i => (gen + 1) + i) := by
  rw [List.range_succ_eq_map, List.map_cons, List.map_map]
  have hf : ((fun i => gen + i) ∘ Nat.succ) = (fun i => (gen + 1) + i) := by
    funext i
    simp [Function.comp]
    omega
  rw [hf]
  simp

lemma simLoop_count (P : Params) :
    ∀ (fuel gen : Nat) (soc : Society) (st : Strm),
      (simLoop P fuel gen soc st).records.length ≤ fuel ∧
      ((simLoop P fuel gen soc st).outcome = Outcome.generationsExhausted →
        (simLoop P fuel gen soc st).records.length = fuel) ∧
      ((simLoop P fuel gen soc st).outcome = Outcome.depleted →
        (simLoop P fuel gen soc st).records.length < fuel) ∧
      ((simLoop P fuel gen soc st).outcome = Outcome.complexityLimit →
        1 ≤ (simLoop P fuel gen soc st).records.length ∧
        P.limit ≤
          ((simLoop P fuel gen soc st).records.getLastD record0).tech_complexity) ∧
      (simLoop P fuel gen soc st).records.map Record.generation =
        (List.range (simLoop P fuel gen soc st).records.length).map
          (fun i => gen + i) := by
  intro fuel
  induction fuel with
  | zero => intro gen soc st; simp [simLoop]
  | succ fuel ih =>
      intro gen soc st
      simp only [simLoop]
      set u := update_resource_store soc (resource_function soc.space.length
        (evaluate soc.space soc.technologies) soc.technologies.length) with hu
      by_cases hdep : u.2.is_depleted = true
      · simp [hdep]
      · rw [if_neg hdep]
        set a := genEdits P u.1 u.2 st with ha
        by_cases hlim : P.limit ≤ a.1.technologies.length
        · rw [if_pos hlim]
          refine ⟨by simp, by simp, by simp, ?_, by simp [List.range_succ]⟩
          intro _
          exact ⟨by simp, by simpa [List.getLastD] using hlim⟩
        · rw [if_neg hlim]
          obtain ⟨ihlen, ihex, ihdep2, ihcl, ihmap⟩ := ih (gen + 1) a.1 a.2.1
          refine ⟨?_, ?_, ?_, ?_, ?_⟩
          · simp only [List.length_cons]
            omega
          · intro ho
            simp only at ho
            simp only [List.length_cons, ihex ho]
          · intro ho
            simp only at ho
            have := ihdep2 ho
            simp only [List.length_cons]
            omega
          · intro ho
            simp only at ho
            obtain ⟨h1, h2⟩ := ihcl ho
            refine ⟨by simp, ?_⟩
            have hne : (simLoop P fuel (gen + 1) a.1 a.2.1).records ≠ [] :=
              List.length_pos.mp (by omega)
            simp only [List.getLastD_cons]
            rw [getLastD_irrel _ _ record0 hne]
            exact h2
          · simp only [List.map_cons, List.length_cons]
            rw [ihmap, range_map_shift]

lemma simLoop_lengths (P : Params) :
    ∀ (fuel gen : Nat) (soc : Society) (st : Strm),
      1 ≤ soc.technologies.length → 1 ≤ soc.space.length →
      ∀ r ∈ (simLoop P fuel gen soc st).records,
        1 ≤ r.tech_complexity ∧ 1 ≤ r.space_complexity := by
  intro fuel
  induction fuel with
  | zero => intro gen soc st _ _ r hr; simp [simLoop] at hr
  | succ fuel ih =>
      intro gen soc st ht hs r hr
      simp only [simLoop] at hr
      by_cases hdep :
        (update_resource_store soc (resource_function soc.space.length
          (evaluate soc.space soc.technologies) soc.technologies.length)).2.is_depleted = true
      · simp [hdep] at hr
      · rw [if_neg hdep] at hr
        have ht1 : 1 ≤ (update_resource_store soc (resource_function soc.space.length
            (evaluate soc.space soc.technologies) soc.technologies.length)).2.technologies.length := by
          rw [update_resource_store_technologies]; exact ht
        have hs1 : 1 ≤ (update_resource_store soc (resource_function soc.space.length
            (evaluate soc.space soc.technologies) soc.technologies.length)).2.space.length := by
          rw [update_resource_store_space]; exact hs
        have hg := genEdits_lengths P
          (update_resource_store soc (resource_function soc.space.length
            (evaluate soc.space soc.technologies) soc.technologies.length)).1
          (update_resource_store soc (resource_function soc.space.length
            (evaluate soc.space soc.technologies) soc.technologies.length)).2
          st ht1 hs1
        by_cases hlim :
          P.limit ≤
            ((genEdits P
              (update_resource_store soc (resource_function soc.space.length
                (evaluate soc.space soc.technologies) soc.technologies.length)).1
              (update_resource_store soc (resource_function soc.space.length
                (evaluate soc.space soc.technologies) soc.technologies.length)).2
              st).1).technologies.length
        · rw [if_pos hlim] at hr
          simp only [List.mem_singleton] at hr
          subst hr
          exact hg
        · rw [if_neg hlim] at hr
          simp only [List.mem_cons] at hr
          rcases hr with hr | hr
          · subst hr
            exact hg
          · exact ih (gen + 1) _ _ hg.1 hg.2 r hr

lemma simLoop_trace_edits (P : Params) :
    ∀ (fuel gen : Nat) (soc : Society) (st : Strm),
      ∀ e ∈ (simLoop P fuel gen soc st).trace,
        OpCall.isEdit e = true → OpCall.preDepleted e = false := by
  intro fuel
  induction fuel with
  | zero => intro gen soc st e he; simp [simLoop] at he
  | succ fuel ih =>
      intro gen soc st e he
      simp only [simLoop] at he
      by_cases hdep :
        (update_resource_store soc (resource_function soc.space.length
          (evaluate soc.space soc.technologies) soc.technologies.length)).2.is_depleted = true
      · simp [hdep] at he
        subst he
        intro hed
        simp [OpCall.isEdit] at hed
      · rw [if_neg hdep] at he
        rw [Bool.not_eq_true] at hdep
        have hgen := genEdits_trace P
          (update_resource_store soc (resource_function soc.space.length
            (evaluate soc.space soc.technologies) soc.technologies.length)).1
          (update_resource_store soc (resource_function soc.space.length
            (evaluate soc.space soc.technologies) soc.technologies.length)).2
          st
        by_cases hlim :
          P.limit ≤
            ((genEdits P
              (update_resource_store soc (resource_function soc.space.length
                (evaluate soc.space soc.technologies) soc.technologies.length)).1
              (update_resource_store soc (resource_function soc.space.length
                (evaluate soc.space soc.technologies) soc.technologies.length)).2
              st).1).technologies.length
        · rw [if_pos hlim] at he
          simp only [List.mem_cons] at he
          rcases he with he | he
          · subst he
            intro hed
            simp [OpCall.isEdit] at hed
          · intro _
            exact (hgen e he).1.trans hdep
        · rw [if_neg hlim] at he
          simp only [List.mem_append, List.mem_cons] at he
          rcases he with (he | he) | he
          · subst he
            intro hed
            simp [OpCall.isEdit] at hed
          · intro _
            exact (hgen e he).1.trans hdep
          · exact ih (gen + 1) _ _ e he

lemma simLoop_of_depleted (P : Params) (fuel gen : Nat) (soc : Society)
    (st : Strm) (h : soc.is_depleted = true) :
    (simLoop P fuel gen soc st).records = [] ∧
    ∀ e ∈ (simLoop P fuel gen soc st).trace, OpCall.isEdit e = false := by
  cases fuel with
  | zero => simp [simLoop]
  | succ fuel =>
      have hdep :
          (update_resource_store soc (resource_function soc.space.length
            (evaluate soc.space soc.technologies) soc.technologies.length)).2.is_depleted = true :=
        update_resource_store_depleted_mono _ _ h
      simp only [simLoop]
      rw [if_pos hdep]
      refine ⟨rfl, ?_⟩
      intro e he
      simp only [List.mem_singleton] at he
      subst he
      rfl

lemma simulation_records_eq (P : Params) (st : Strm) :
    (simulation P st).records =
      rec0 P st ::
        (simLoop P (P.generations - 1) 1 (soc0 P st) (society_init P st).2).records := rfl

lemma simulation_outcome_eq (P : Params) (st : Strm) :
    (simulation P st).outcome =
      (simLoop P (P.generations - 1) 1 (soc0 P st) (society_init P st).2).outcome := rfl

lemma simulation_trace_eq (P : Params) (st : Strm) :
    (simulation P st).trace =
      OpCall.update (society_init P st).1 (soc0 P st) ::
        (simLoop P (P.generations - 1) 1 (soc0 P st) (society_init P st).2).trace := rfl

lemma society_init_technologies_length (P : Params) (st : Strm) :
    (society_init P st).1.technologies.length = P.t_length := by
  simp [society_init, string_generator_length]

lemma society_init_space_length (P : Params) (st : Strm) :
    (society_init P st).1.space.length = P.s_length := by
  simp [society_init, string_generator_length]

/-- Claim C1 (code bug): `string_generator` ignores its probability
parameter entirely — `np.random.choice(['0','1'], l, [p,1-p])` passes the
weights as the positional `replace` argument — so its output differs from
the spec's reference generator `generate_spec`: at `p = 0` every symbol
should be `'0'`, yet on a stream whose draws land in the upper half the
code produces `'1'`. -/
theorem C1_generator_ignores_p :
    (∀ (p q : ℚ) (l : Nat) (st : Strm),
      string_generator p l st = string_generator q l st) ∧
    (string_generator 0 1 cst34).1 = [true] ∧
    (generate_spec 0 1 cst34).1 = [false] := by
  refine ⟨?_, by decide, by decide⟩
  intro p q l
  induction l with
  | zero => intro st; rfl
  | succ l ih => intro st; simp [string_generator, ih]

/-- Claim C2 counterexample: an invalid configuration — negative initial
endowment and an initial probability above 1 (`cP3`) — is not rejected: the
simulation runs and emits a generation record. -/
theorem C2_counterexample : (simulation cP3 cst0).records ≠ [] := by decide

/-- Claim C2 (amended): the engine performs no configuration validation;
a run with a negative initial endowment or an out-of-range initial
probability proceeds normally, creating simulation state and emitting at
least the generation-0 record. -/
theorem C2_no_validation (P : Params) (st : Strm)
    (h : P.initial_endowment < 0 ∨
      (∃ q, P.s_prob = some q ∧ (q < 0 ∨ 1 < q))) :
    1 ≤ (simulation P st).records.length ∧ (simulation P st).records ≠ [] := by
  constructor
  · rw [simulation_records_eq]
    simp only [List.length_cons]
    omega
  · rw [simulation_records_eq]
    exact List.cons_ne_nil _ _

/-- Claim C2 witness: the amended statement applied to the concrete invalid
configuration `cP3`. -/
theorem C2_witness : 1 ≤ (simulation cP3 cst0).records.length :=
  (C2_no_validation cP3 cst0 (Or.inl (by decide))).1

/-- Claim C3 counterexample: with endowment 0 and mismatched length-1
initial strings (`cP1` under `cst1`), the store depletes at generation 0,
and at generation 1 the engine invokes `update_resource_store` on the
already-depleted society: the operation trace contains a call whose
receiving society has `is_depleted = true`. -/
theorem C3_counterexample :
    (simulation cP1 cst1).trace.any (fun e => OpCall.preDepleted e) = true := by
  decide

/-- Claim C3 (amended): depletion is absorbing in state — the transition
that sets `is_depleted` zeroes the store; `update_resource_store` on a
depleted zero-store society returns it unchanged; a generation entered with
a depleted society emits no record and invokes no edit operation; and the
engine never invokes `ce_technologies`/`ce_space` on a depleted society.
(The engine may, however, invoke `update_resource_store` once more on a
society depleted at generation 0 — the call the counterexample exhibits —
which leaves the state unchanged.) -/
theorem C3_absorbing (P : Params) (st st2 : Strm) (soc : Society) (net : ℚ)
    (fuel gen : Nat) :
    (soc.is_depleted = false →
      (update_resource_store soc net).2.is_depleted = true →
      (update_resource_store soc net).2.resource_store = 0) ∧
    (soc.is_depleted = true → soc.resource_store = 0 →
      (update_resource_store soc net).2 = soc) ∧
    (soc.is_depleted = true →
      (simLoop P fuel gen soc st2).records = [] ∧
      ∀ e ∈ (simLoop P fuel gen soc st2).trace, OpCall.isEdit e = false) ∧
    (∀ e ∈ (simulation P st).trace,
      OpCall.isEdit e = true → OpCall.preDepleted e = false) := by
  refine ⟨?_, ?_, ?_, ?_⟩
  · intro h0 h1
    exact update_resource_store_zero_of_depleted soc net h1 h0
  · intro h h0
    exact update_resource_store_fixpoint soc net h h0
  · intro h
    exact simLoop_of_depleted P fuel gen soc st2 h
  · intro e he hed
    rw [simulation_trace_eq] at he
    rcases List.mem_cons.mp he with he | he
    · subst he
      simp [OpCall.isEdit] at hed
    · exact simLoop_trace_edits P (P.generations - 1) 1 _ _ e he hed

/-- Claim C3 witness: the amended statement applied to a concrete depleted
society with an empty store — the update leaves it unchanged. -/
theorem C3_witness :
    (update_resource_store ⟨[true], [true], 0, 0, true⟩ (-1)).2 =
      ⟨[true], [true], 0, 0, true⟩ :=
  (C3_absorbing cP1 cst0 cst0 ⟨[true], [true], 0, 0, true⟩ (-1) 0 0).2.1 rfl rfl

/-- Claim C4: `update_resource_store` follows the specified rule exactly:
for `netFlow >= 1` the store is unchanged, available equals `netFlow` and
no depletion; otherwise, with deficit 1 for `0 <= netFlow < 1` and
`abs(netFlow)` for `netFlow < 0`, a coverable deficit is drawn from the
store with available 1.0, and an uncoverable one collapses the society:
depleted, store 0, available equal to the original store. -/
theorem C4_update_rule (soc : Society) (net : ℚ)
    (h0 : 0 ≤ soc.resource_store) (hd : soc.is_depleted = false) :
    (1 ≤ net →
      (update_resource_store soc net).1 = net ∧
      (update_resource_store soc net).2.resource_store = soc.resource_store ∧
      (update_resource_store soc net).2.is_depleted = false) ∧
    (net < 1 →
      ((if 0 ≤ net then (1:ℚ) else |net|) ≤ soc.resource_store →
        (update_resource_store soc net).1 = 1 ∧
        (update_resource_store soc net).2.resource_store =
          soc.resource_store - (if 0 ≤ net then (1:ℚ) else |net|) ∧
        (update_resource_store soc net).2.is_depleted = false) ∧
      (soc.resource_store < (if 0 ≤ net then (1:ℚ) else |net|) →
        (update_resource_store soc net).1 = soc.resource_store ∧
        (update_resource_store soc net).2.resource_store = 0 ∧
        (update_resource_store soc net).2.is_depleted = true)) := by
  constructor
  · intro h1
    simp [update_resource_store, h1, hd]
  · intro h1
    have h1' : ¬ 1 ≤ net := not_le.mpr h1
    constructor
    · intro h2
      simp [update_resource_store, h1', h2, hd]
    · intro h2
      have h2' : ¬ (if 0 ≤ net then (1:ℚ) else |net|) ≤ soc.resource_store :=
        not_le.mpr h2
      simp [update_resource_store, h1', h2']

/-- Claim C4 witness: the rule applied to a concrete society with store 100
and net flow 5. -/
theorem C4_witness :
    (update_resource_store ⟨[true], [true], 100, 100, false⟩ 5).1 = 5 :=
  ((C4_update_rule ⟨[true], [true], 100, 100, false⟩ 5 (by decide) rfl).1
    (by decide)).1

/-- Claim C5: the acceptance rule of `string_edit` — when the second draw
is below the acceptance probability the candidate replaces the original
exactly when its similarity to the reference strictly exceeds the
original's (ties and worse keep the original); otherwise the candidate is
accepted unconditionally. -/
theorem C5_acceptance_rule (s1 s2 : List Bool) (eff : ℚ) (st : Strm)
    (h0 : 0 ≤ eff) (h1 : eff ≤ 1) :
    (string_edit s1 s2 eff st).1 =
      if (next (string_edit_candidate s1 st).2).1 < eff then
        (if evaluate s1 s2 < evaluate (string_edit_candidate s1 st).1 s2 then
          (string_edit_candidate s1 st).1
        else s1)
      else (string_edit_candidate s1 st).1 := by
  by_cases hq : (next (string_edit_candidate s1 st).2).1 < eff
  · by_cases he : evaluate (string_edit_candidate s1 st).1 s2 ≤ evaluate s1 s2
    · simp [string_edit, hq, he, not_lt.mpr he]
    · simp [string_edit, hq, he, not_le.mp he]
  · simp [string_edit, hq]

/-- Claim C5 witness: the acceptance rule applied at a concrete input. -/
theorem C5_witness :
    (string_edit [true] [true] (1/2) cst0).1 =
      if (next (string_edit_candidate [true] cst0).2).1 < 1/2 then
        (if evaluate [true] [true] <
            evaluate (string_edit_candidate [true] cst0).1 [true] then
          (string_edit_candidate [true] cst0).1
        else [true])
      else (string_edit_candidate [true] cst0).1 :=
  C5_acceptance_rule [true] [true] (1/2) cst0 (by decide) (by decide)

/-- Claim C6: every run stops after at most `generations` generations via
exactly one of the three conditions: depletion returns the non-empty
records accumulated so far (none for the depleting generation), the
complexity limit returns records whose last row has reached the limit, and
otherwise exactly `generations` records are produced; generation indices
are consecutive from 0. -/
theorem C6_termination (P : Params) (st : Strm) (hgen : 1 ≤ P.generations) :
    1 ≤ (simulation P st).records.length ∧
    (simulation P st).records.length ≤ P.generations ∧
    ((simulation P st).outcome = Outcome.generationsExhausted →
      (simulation P st).records.length = P.generations) ∧
    ((simulation P st).outcome = Outcome.depleted →
      (simulation P st).records.length < P.generations) ∧
    ((simulation P st).outcome = Outcome.complexityLimit →
      P.limit ≤ ((simulation P st).records.getLastD record0).tech_complexity) ∧
    (simulation P st).records.map Record.generation =
      List.range (simulation P st).records.length := by
  obtain ⟨hlen, hex, hdep, hcl, hmap⟩ :=
    simLoop_count P (P.generations - 1) 1 (soc0 P st) (society_init P st).2
  refine ⟨?_, ?_, ?_, ?_, ?_, ?_⟩
  · rw [simulation_records_eq]
    simp
  · rw [simulation_records_eq]
    simp only [List.length_cons]
    omega
  · intro ho
    rw [simulation_outcome_eq] at ho
    rw [simulation_records_eq]
    simp only [List.length_cons]
    rw [hex ho]
    omega
  · intro ho
    rw [simulation_outcome_eq] at ho
    have := hdep ho
    rw [simulation_records_eq]
    simp only [List.length_cons]
    omega
  · intro ho
    rw [simulation_outcome_eq] at ho
    obtain ⟨h1, h2⟩ := hcl ho
    rw [simulation_records_eq, List.getLastD_cons,
      getLastD_irrel _ _ record0 (List.length_pos.mp (by omega))]
    exact h2
  · rw [simulation_records_eq]
    simp only [List.map_cons, List.length_cons]
    rw [hmap]
    have hg : (rec0 P st).generation = 0 := rfl
    rw [hg, List.range_succ_eq_map]
    congr 1
    have hf : (fun i => 1 + i) = Nat.succ := funext fun i => by omega
    rw [hf]

/-- Claim C6 witness: the termination statement applied to the concrete
run `cP2`/`cst0`. -/
theorem C6_witness :
    (simulation cP2 cst0).records.map Record.generation =
      List.range (simulation cP2 cst0).records.length :=
  (C6_termination cP2 cst0 (by decide)).2.2.2.2.2

/-- Claim C7: determinism — a run is a function of its parameters and the
seed-derived random stream; runs with identical parameters and pointwise
identical streams produce identical results (records, outcome and trace). -/
theorem C7_determinism (P : Params) (s1 s2 : Strm)
    (h : ∀ n, s1 n = s2 n) : simulation P s1 = simulation P s2 := by
  have hs : s1 = s2 := funext h
  rw [hs]

/-- Claim C7 witness: determinism applied at a concrete parameter set and
stream. -/
theorem C7_witness : simulation cP2 cst0 = simulation cP2 cst0 :=
  C7_determinism cP2 cst0 cst0 (fun _ => rfl)

/-- Claim C8 counterexample: `delete` on the length-1 string "1" does not
return the string unchanged (it returns the empty string — the source's
`delete` has no length guard; the guard lives in `string_edit`). -/
theorem C8_counterexample : (delete [true] cst0).1 ≠ [true] := by decide

/-- Claim C8 (amended): for every non-empty bit-string, `flip` preserves
the length, `insert` lengthens by one, and `delete` shortens by one —
including length-1 strings, where it returns the empty string; the
length-1 no-op guard is implemented in `string_edit`'s contraction branch,
which returns the string unchanged without calling `delete`. -/
theorem C8_primitive_lengths (s : List Bool) (st : Strm) (h : s ≠ []) :
    (flip s st).1.length = s.length ∧
    (insert s st).1.length = s.length + 1 ∧
    (delete s st).1.length = s.length - 1 ∧
    (s.length = 1 → 2/3 ≤ (next st).1 →
      string_edit_candidate s st = (s, (next st).2)) := by
  refine ⟨flip_length s st h, insert_length s st, delete_length s st h, ?_⟩
  intro hlen hq
  simp only [string_edit_candidate]
  have h1 : ¬ (next st).1 < 1/3 :=
    not_lt.mpr (le_trans (by norm_num : (1:ℚ)/3 ≤ 2/3) hq)
  have h2 : ¬ (next st).1 < 2/3 := not_lt.mpr hq
  have h3 : ¬ 1 < s.length := by omega
  rw [if_neg h1, if_neg h2, if_neg h3]

/-- Claim C8 witness: the amended statement applied to the length-1
string "1". -/
theorem C8_witness : (delete [true] cst0).1.length = [true].length - 1 :=
  (C8_primitive_lengths [true] cst0 (by decide)).2.2.1

/-- Claim C9: for non-empty bit-strings, `evaluate` equals 1 minus the
Levenshtein distance divided by the maximum length, is symmetric, is 1 on
identical strings, and lies in `[0, 1]`. -/
theorem C9_similarity_props (a b : List Bool) (ha : a ≠ []) (hb : b ≠ []) :
    evaluate a b =
      1 - (lev a b : ℚ) / (max a.length b.length : ℚ) ∧
    evaluate a b = evaluate b a ∧
    evaluate a a = 1 ∧
    0 ≤ evaluate a b ∧ evaluate a b ≤ 1 :=
  ⟨rfl, evaluate_symm a b, evaluate_self a, evaluate_nonneg a b ha,
    evaluate_le_one a b⟩

/-- Claim C9 witness: the similarity properties applied to the concrete
strings "1" and "0". -/
theorem C9_witness : 0 ≤ evaluate [true] [false] ∧ evaluate [true] [false] ≤ 1 :=
  ⟨(C9_similarity_props [true] [false] (by decide) (by decide)).2.2.2.1,
    (C9_similarity_props [true] [false] (by decide) (by decide)).2.2.2.2⟩

/-- Claim C10: in a run started with positive initial lengths both strings
stay non-empty — every emitted record has `tech_complexity >= 1` and
`space_complexity >= 1` (the contraction branch of `string_edit` refuses to
shrink a length-1 string). -/
theorem C10_strings_nonempty (P : Params) (st : Strm)
    (hs : 1 ≤ P.s_length) (ht : 1 ≤ P.t_length) :
    ∀ r ∈ (simulation P st).records,
      1 ≤ r.tech_complexity ∧ 1 ≤ r.space_complexity := by
  intro r hr
  rw [simulation_records_eq] at hr
  rcases List.mem_cons.mp hr with hr | hr
  · subst hr
    constructor
    · show 1 ≤ (society_init P st).1.technologies.length
      rw [society_init_technologies_length]
      exact ht
    · show 1 ≤ (society_init P st).1.space.length
      rw [society_init_space_length]
      exact hs
  · have ht1 : 1 ≤ (soc0 P st).technologies.length := by
      show 1 ≤ (update_resource_store (society_init P st).1 (net0 P st)).2.technologies.length
      rw [update_resource_store_technologies, society_init_technologies_length]
      exact ht
    have hs1 : 1 ≤ (soc0 P st).space.length := by
      show 1 ≤ (update_resource_store (society_init P st).1 (net0 P st)).2.space.length
      rw [update_resource_store_space, society_init_space_length]
      exact hs
    exact simLoop_lengths P (P.generations - 1) 1 (soc0 P st)
      (society_init P st).2 ht1 hs1 r hr

/-- Claim C10 witness: the invariant applied to a record of the concrete
run `cP2`/`cst0`. -/
theorem C10_witness :
    1 ≤ ((simulation cP2 cst0).records.getLastD record0).tech_complexity ∧
    1 ≤ ((simulation cP2 cst0).records.getLastD record0).space_complexity :=
  C10_strings_nonempty cP2 cst0 (by decide) (by decide) _ (by decide)

end Bitw0r1d
